import Mathlib

/-!
Shallow embedding of the `hgm` crate (src/lib.rs): the `guard!`,
`fn_guard!` and `case!` macro_rules macros, together with the crate-level
constant `otherwise : bool = true` (src/lib.rs line 11).

Guard conditions and result expressions are opaque host expressions that
the macros only relocate.  We model an opaque condition as an index
interpreted by an environment `C : Nat → (Nat → Nat) → Bool` over a store
`Nat → Nat` of where-binding values, and a result as an opaque value of a
type `α`.  Evaluation of a lowered construct returns an
`Except String α` value (`Except.error msg` models `panic!(msg)`, which is
fatal to the execution path and is not caught anywhere in the expansion)
together with a trace of the user expressions that were evaluated, in
order, so that claims about evaluation order, evaluation counts and
short-circuiting can be stated exactly.
-/

namespace HGM

/-- Condition position of a guard clause, as the `guard!` macro sees it.
`otherw` is the literal token `otherwise`: the terminal rule of `guard!`
(src/lib.rs line 161) matches it literally.  `owExpr` is the identifier
`otherwise` after it has been captured by a `$cond:expr` fragment (the
where-rule of `guard!` and both `fn_guard!` rules re-emit every condition
this way): an expr-captured fragment is opaque to later literal-token
matchers, so the terminal rule no longer recognises it, but as an
expression it still evaluates to the value bound to `otherwise` in scope
at the call site (the crate constant `true`, unless the user shadows it).
`idx i` is an opaque user condition expression. -/
inductive Cond where
  | otherw
  | owExpr
  | idx (i : Nat)
deriving DecidableEq

/-- One surface clause `| cond => res` of a guard chain. -/
structure Clause (α : Type) where
  cond : Cond
  res : α
deriving DecidableEq

/-- The host-language conditional expression emitted by the lowering:
nested `if cond { res } else { … }` with either a plain result expression
or a `panic!(msg)` at the end. -/
inductive GExpr (α : Type) where
  | ite (c : Cond) (t : α) (e : GExpr α)
  | res (r : α)
  | panicE (msg : String)
deriving DecidableEq

/-- GuardChainLowerer: the lowering performed by rules 2-4 of `guard!`
(src/lib.rs lines 161-174), by recursion over the clause list, with the
rules tried in the macro's order.  Rule 2 (`| otherwise => $result`)
matches only when the literal token `otherwise` heads the single remaining
clause; rule 3 handles a clause followed by a nonempty rest, emitting
`if cond { res } else { guard!(rest) }`; rule 4 handles a single remaining
clause that rule 2 did not match, emitting
`if cond { res } else { panic!("Non-exhaustive guards") }`.  The macro
rejects an empty clause list at expansion time, so the `[]` equation is
never reached from a well-formed surface call. -/
def lower {α : Type} : List (Clause α) → GExpr α
  | [] => GExpr.panicE "Non-exhaustive guards"
  | [cl] =>
    match cl.cond with
    | Cond.otherw => GExpr.res cl.res
    | _ => GExpr.ite cl.cond cl.res (GExpr.panicE "Non-exhaustive guards")
  | cl :: rest => GExpr.ite cl.cond cl.res (lower rest)

/-- Value of a condition, given the opaque-condition environment `C`, the
value `ow` of the identifier `otherwise` in scope at the call site (the
crate constant `true` unless the user shadows it), and the store `s` of
where-binding values.  A non-final literal `otherwise` token is captured by
rule 3 as an expression, so when it is evaluated at all it is evaluated as
the identifier, exactly like `owExpr`. -/
def evalCond (C : Nat → (Nat → Nat) → Bool) (ow : Bool) (s : Nat → Nat) : Cond → Bool
  | Cond.otherw => ow
  | Cond.owExpr => ow
  | Cond.idx i => C i s

/-- Trace event: evaluation of one user expression.  `bind n` is the
evaluation of the value expression of the where-binding named `n`
(emitted as `let n = val;`), `cond c` the evaluation of a guard condition,
`res r` the evaluation of the chosen result expression. -/
inductive Ev (α : Type) where
  | bind (n : Nat)
  | cond (c : Cond)
  | res (r : α)
deriving DecidableEq

/-- Evaluation of the emitted conditional expression under Rust's
if/else semantics: the condition of an `if` is evaluated first; exactly
one branch is then evaluated; `panic!` evaluates no user expression and
aborts the path with its fixed message. -/
def evalG {α : Type} (C : Nat → (Nat → Nat) → Bool) (ow : Bool) (s : Nat → Nat) :
    GExpr α → Except String α × List (Ev α)
  | GExpr.res r => (Except.ok r, [Ev.res r])
  | GExpr.panicE m => (Except.error m, [])
  | GExpr.ite c t e =>
    if evalCond C ow s c then (Except.ok t, [Ev.cond c, Ev.res t])
    else
      let p := evalG C ow s e
      (p.1, Ev.cond c :: p.2)

/-- Effect on one clause of being captured and re-emitted through
`$cond:expr` fragments: the where-rule of `guard!` (src/lib.rs lines
154-160) and both `fn_guard!` rules re-emit every clause as
`| $cond => $result` with `$cond` an expr capture.  The literal token
`otherwise` thereby becomes an opaque expression fragment, which the
literal matcher of the terminal rule no longer matches; every other
condition was already an opaque expression. -/
def frag {α : Type} : Clause α → Clause α
  | ⟨Cond.otherw, r⟩ => ⟨Cond.owExpr, r⟩
  | cl => cl

/-- One where-binding `name = val`: the value expression may read the
store of earlier bindings. -/
structure WhereBinding where
  name : Nat
  val : (Nat → Nat) → Nat

/-- Store update performed by one emitted `let name = v;`. -/
def setStore (s : Nat → Nat) (n v : Nat) : Nat → Nat :=
  fun m => if m = n then v else s m

/-- Store after all the emitted `let` declarations have run, in declared
order (each value expression reads the store of the bindings before it). -/
def bindStore (s : Nat → Nat) : List WhereBinding → (Nat → Nat)
  | [] => s
  | b :: rest => bindStore (setStore s b.name (b.val s)) rest

/-- BindingScopeInjector plus chain evaluation: the block
`{ let b1 = v1; …; let bn = vn; guard!(clauses) }` emitted by the
where-rule of `guard!` (src/lib.rs lines 154-160) and by the bodies of
`fn_guard!`.  Each `let` evaluates its value expression once, in declared
order, before the inner lowered chain runs; the inner `guard!` call
receives the clauses as re-captured expr fragments (see `frag`). -/
def evalLetsGuard {α : Type} (C : Nat → (Nat → Nat) → Bool) (ow : Bool)
    (bs : List WhereBinding) (cs : List (Clause α)) (s : Nat → Nat) :
    Except String α × List (Ev α) :=
  match bs with
  | [] => evalG C ow s (lower (cs.map frag))
  | b :: rest =>
    let p := evalLetsGuard C ow rest cs (setStore s b.name (b.val s))
    (p.1, Ev.bind b.name :: p.2)

/-- Evaluation of `guard!` without a where clause: rules 2-4 apply
directly to the literal surface tokens, so the construct is exactly the
lowered chain. -/
def guardBang {α : Type} (C : Nat → (Nat → Nat) → Bool) (ow : Bool)
    (cs : List (Clause α)) (s : Nat → Nat) : Except String α × List (Ev α) :=
  evalG C ow s (lower cs)

/-- Evaluation of `guard!` with a where clause (rule 1, src/lib.rs lines
154-160; the rule requires at least one binding). -/
def guardBangWhere {α : Type} (C : Nat → (Nat → Nat) → Bool) (ow : Bool)
    (bs : List WhereBinding) (cs : List (Clause α)) (s : Nat → Nat) :
    Except String α × List (Ev α) :=
  evalLetsGuard C ow bs cs s

/-- Return type of the function emitted by `fn_guard!`. -/
inductive RetTy where
  | unit
  | ty (i : Nat)
deriving DecidableEq

/-- Input to `fn_guard!`: the declared signature's optional return type
(`none` when the `-> Type` part is absent), the optional where-bindings
and the guard clauses.  Visibility and attributes are copied verbatim and
play no role in the claims. -/
structure FnGuardDef (α : Type) where
  ret : Option Nat
  bindings : List WhereBinding
  chain : List (Clause α)

/-- Return type of the emitted function: the first `fn_guard!` rule
(src/lib.rs lines 404-415) requires `-> $ret:ty` and copies it; the second
rule (lines 418-429) matches a signature with no return type and emits a
function with no return annotation, whose return type in Rust is unit. -/
def emittedRetTy {α : Type} (d : FnGuardDef α) : RetTy :=
  match d.ret with
  | none => RetTy.unit
  | some i => RetTy.ty i

/-- Body of the function emitted by either `fn_guard!` rule: the optional
`let` declarations followed by `guard!` over the re-captured clauses. -/
def fnGuardBody {α : Type} (C : Nat → (Nat → Nat) → Bool) (ow : Bool)
    (d : FnGuardDef α) (s : Nat → Nat) : Except String α × List (Ev α) :=
  evalLetsGuard C ow d.bindings d.chain s

/-- Call semantics of the function emitted by the second `fn_guard!` rule
(absent return type): the body runs for its effects and the function
returns unit; Rust's typing forces the block's value to be `()`, so the
value produced by the guard chain is discarded into the unit value.  A
panic in the body propagates unchanged. -/
def evalFnGuardUnit {α : Type} (C : Nat → (Nat → Nat) → Bool) (ow : Bool)
    (d : FnGuardDef α) (s : Nat → Nat) : Except String Unit × List (Ev α) :=
  let p := fnGuardBody C ow d s
  (p.1.map (fun _ => ()), p.2)

/-- One surface arm `| pattern [if guard] => result` of `case!`, over a
subject of type `γ`.  Pattern-bound variables are projections of the
subject, so the optional guard and the result are functions of the
subject; `pat` is whether the pattern matches the subject. -/
structure CaseArm (γ α : Type) where
  pat : γ → Bool
  guard : Option (γ → Bool)
  result : γ → α

/-- Whether a native match arm is selected for subject `x`: its pattern
matches and its guard, when present, evaluates true. -/
def armMatches {γ α : Type} (x : γ) (a : CaseArm γ α) : Bool :=
  a.pat x && (match a.guard with
    | none => true
    | some g => g x)

/-- Semantics of a native Rust `match x { arms }`: arms are tried top to
bottom; the first selected arm's result is the value.  `none` stands for
whatever the host does on a non-exhaustive match (a compile-time error in
Rust); `case!` adds no failure of its own. -/
def matchEval {γ α : Type} (x : γ) : List (CaseArm γ α) → Option α
  | [] => none
  | a :: rest => if armMatches x a then some (a.result x) else matchEval x rest

/-- CaseArmAccumulator: the `@acc` rules of `case!` (src/lib.rs lines
582-590) carry an accumulator of already-translated native arms and append
each surface arm to it, left to right, one per step. -/
def caseAccArms {γ α : Type} (acc : List (CaseArm γ α)) :
    List (CaseArm γ α) → List (CaseArm γ α)
  | [] => acc
  | a :: rest => caseAccArms (acc ++ [a]) rest

/-- Evaluation of `case!(x => arms)`: the entry rule (src/lib.rs lines
591-593) starts the accumulator empty, and the terminal `@acc` rule wraps
the accumulated arms in a native `match` over the subject. -/
def caseBang {γ α : Type} (x : γ) (arms : List (CaseArm γ α)) : Option α :=
  matchEval x (caseAccArms [] arms)

/-- Number of times the value expression of the binding named `n` is
evaluated, read off an evaluation trace. -/
def countBind {α : Type} (n : Nat) : List (Ev α) → Nat
  | [] => 0
  | Ev.bind m :: rest => (if m = n then 1 else 0) + countBind n rest
  | _ :: rest => countBind n rest

/-- Number of occurrences of the name `n` in a where-binding list. -/
def countName (n : Nat) : List WhereBinding → Nat
  | [] => 0
  | b :: rest => (if b.name = n then 1 else 0) + countName n rest

/-- Whether a trace event is the evaluation of a where-binding value. -/
def isBind {α : Type} : Ev α → Bool
  | Ev.bind _ => true
  | _ => false

theorem lower_cons {α : Type} (cl : Clause α) (rest : List (Clause α)) (h : rest ≠ []) :
    lower (cl :: rest) = GExpr.ite cl.cond cl.res (lower rest) := by
  cases rest with
  | nil => exact absurd rfl h
  | cons a l => rfl

theorem lower_single_otherw {α : Type} (cl : Clause α) (h : cl.cond = Cond.otherw) :
    lower [cl] = GExpr.res cl.res := by
  obtain ⟨c, r⟩ := cl
  cases h
  rfl

theorem lower_single_not_otherw {α : Type} (cl : Clause α) (h : cl.cond ≠ Cond.otherw) :
    lower [cl] = GExpr.ite cl.cond cl.res (GExpr.panicE "Non-exhaustive guards") := by
  obtain ⟨c, r⟩ := cl
  cases c with
  | otherw => exact absurd rfl h
  | owExpr => rfl
  | idx i => rfl

theorem evalG_no_bind {α : Type} (C : Nat → (Nat → Nat) → Bool) (ow : Bool) (s : Nat → Nat)
    (g : GExpr α) (n : Nat) : Ev.bind n ∉ (evalG C ow s g).2 := by
  induction g with
  | res r => simp [evalG]
  | panicE m => simp [evalG]
  | ite c t e ih =>
    by_cases h : evalCond C ow s c = true
    · simp [evalG, h]
    · simp only [evalG, h, if_false, Bool.false_eq_true, if_neg, not_false_eq_true,
        List.mem_cons]
      rintro (h1 | h2)
      · exact Ev.noConfusion h1
      · exact ih h2

theorem evalLetsGuard_eq {α : Type} (C : Nat → (Nat → Nat) → Bool) (ow : Bool)
    (bs : List WhereBinding) (cs : List (Clause α)) (s : Nat → Nat) :
    evalLetsGuard C ow bs cs s =
      ((evalG C ow (bindStore s bs) (lower (cs.map frag))).1,
        (bs.map fun b => Ev.bind b.name)
          ++ (evalG C ow (bindStore s bs) (lower (cs.map frag))).2) := by
  induction bs generalizing s with
  | nil => simp [evalLetsGuard, bindStore]
  | cons b rest ih => simp [evalLetsGuard, bindStore, ih]

theorem evalG_lower_allFalse {α : Type} (C : Nat → (Nat → Nat) → Bool) (ow : Bool)
    (s : Nat → Nat) (cs : List (Clause α))
    (hno : ∀ cl ∈ cs, cl.cond ≠ Cond.otherw)
    (hf : ∀ cl ∈ cs, evalCond C ow s cl.cond = false) :
    evalG C ow s (lower cs) =
      (Except.error "Non-exhaustive guards", cs.map fun cl => Ev.cond cl.cond) := by
  induction cs with
  | nil => rfl
  | cons cl rest ih =>
    have hcl : evalCond C ow s cl.cond = false := hf cl (List.mem_cons_self _ _)
    cases rest with
    | nil =>
      rw [lower_single_not_otherw cl (hno cl (List.mem_cons_self _ _))]
      simp [evalG, hcl]
    | cons a l =>
      rw [lower_cons cl (a :: l) (List.cons_ne_nil a l)]
      have ihr := ih (fun c h => hno c (List.mem_cons_of_mem _ h))
        (fun c h => hf c (List.mem_cons_of_mem _ h))
      simp [evalG, hcl, ihr]

theorem evalG_lower_firstTrue {α : Type} (C : Nat → (Nat → Nat) → Bool) (ow : Bool)
    (s : Nat → Nat) (pre post : List (Clause α)) (cl : Clause α)
    (hno : cl.cond ≠ Cond.otherw)
    (hf : ∀ c ∈ pre, evalCond C ow s c.cond = false)
    (ht : evalCond C ow s cl.cond = true) :
    evalG C ow s (lower (pre ++ cl :: post)) =
      (Except.ok cl.res,
        (pre.map fun c => Ev.cond c.cond) ++ [Ev.cond cl.cond, Ev.res cl.res]) := by
  induction pre with
  | nil =>
    cases post with
    | nil =>
      rw [List.nil_append, lower_single_not_otherw cl hno]
      simp [evalG, ht]
    | cons a l =>
      rw [List.nil_append, lower_cons cl (a :: l) (List.cons_ne_nil a l)]
      simp [evalG, ht]
  | cons q pre ih =>
    have hq : evalCond C ow s q.cond = false := hf q (List.mem_cons_self _ _)
    rw [List.cons_append, lower_cons q (pre ++ cl :: post) (by simp)]
    have ihr := ih (fun c h => hf c (List.mem_cons_of_mem _ h))
    simp [evalG, hq, ihr]

theorem evalG_lower_ok_of_true {α : Type} (C : Nat → (Nat → Nat) → Bool) (ow : Bool)
    (s : Nat → Nat) (cs : List (Clause α))
    (h : ∃ cl ∈ cs, evalCond C ow s cl.cond = true) :
    ∃ v, (evalG C ow s (lower cs)).1 = Except.ok v := by
  induction cs with
  | nil => simp at h
  | cons cl rest ih =>
    by_cases hc : evalCond C ow s cl.cond = true
    · cases rest with
      | nil =>
        by_cases how : cl.cond = Cond.otherw
        · rw [lower_single_otherw cl how]
          exact ⟨cl.res, rfl⟩
        · rw [lower_single_not_otherw cl how]
          exact ⟨cl.res, by simp [evalG, hc]⟩
      | cons a l =>
        rw [lower_cons cl (a :: l) (List.cons_ne_nil a l)]
        exact ⟨cl.res, by simp [evalG, hc]⟩
    · obtain ⟨c, hmem, hct⟩ := h
      rcases List.mem_cons.mp hmem with h1 | h2
      · subst h1
        exact absurd hct hc
      · have hr := ih ⟨c, h2, hct⟩
        cases rest with
        | nil => simp at h2
        | cons a l =>
          rw [lower_cons cl (a :: l) (List.cons_ne_nil a l)]
          obtain ⟨v, hv⟩ := hr
          exact ⟨v, by simp [evalG, hc, hv]⟩

theorem countBind_append {α : Type} (n : Nat) (l1 l2 : List (Ev α)) :
    countBind n (l1 ++ l2) = countBind n l1 + countBind n l2 := by
  induction l1 with
  | nil => simp [countBind]
  | cons e rest ih =>
    cases e with
    | bind m => simp [countBind, ih, Nat.add_assoc]
    | cond c => simp [countBind, ih]
    | res r => simp [countBind, ih]

theorem countBind_of_no_bind {α : Type} (n : Nat) (l : List (Ev α))
    (h : ∀ m, Ev.bind m ∉ l) : countBind n l = 0 := by
  induction l with
  | nil => rfl
  | cons e rest ih =>
    cases e with
    | bind m => exact absurd (List.mem_cons_self _ _) (h m)
    | cond c =>
      exact (by simp [countBind] :
        countBind n (Ev.cond c :: rest) = countBind n rest).trans
        (ih fun m hm => h m (List.mem_cons_of_mem _ hm))
    | res r =>
      exact (by simp [countBind] :
        countBind n (Ev.res r :: rest) = countBind n rest).trans
        (ih fun m hm => h m (List.mem_cons_of_mem _ hm))

theorem countBind_map_bind {α : Type} (n : Nat) (bs : List WhereBinding) :
    countBind n (bs.map fun b => (Ev.bind b.name : Ev α)) = countName n bs := by
  induction bs with
  | nil => rfl
  | cons b rest ih => simp [countBind, countName, ih]

theorem filter_isBind_of_no_bind {α : Type} (l : List (Ev α))
    (h : ∀ m, Ev.bind m ∉ l) : l.filter isBind = [] := by
  induction l with
  | nil => rfl
  | cons e rest ih =>
    cases e with
    | bind m => exact absurd (List.mem_cons_self _ _) (h m)
    | cond c =>
      rw [List.filter_cons_of_neg (by simp [isBind])]
      exact ih fun m hm => h m (List.mem_cons_of_mem _ hm)
    | res r =>
      rw [List.filter_cons_of_neg (by simp [isBind])]
      exact ih fun m hm => h m (List.mem_cons_of_mem _ hm)

theorem filter_isBind_map_bind {α : Type} (bs : List WhereBinding) :
    (bs.map fun b => (Ev.bind b.name : Ev α)).filter isBind
      = bs.map fun b => (Ev.bind b.name : Ev α) := by
  induction bs with
  | nil => rfl
  | cons b rest ih =>
    rw [List.map_cons, List.filter_cons_of_pos (by simp [isBind]), ih]

theorem caseAccArms_eq {γ α : Type} (acc arms : List (CaseArm γ α)) :
    caseAccArms acc arms = acc ++ arms := by
  induction arms generalizing acc with
  | nil => simp [caseAccArms]
  | cons a rest ih => simp [caseAccArms, ih]

theorem matchEval_eq_find {γ α : Type} (x : γ) (arms : List (CaseArm γ α)) :
    matchEval x arms = (arms.find? (armMatches x)).map fun a => a.result x := by
  induction arms with
  | nil => rfl
  | cons a rest ih =>
    by_cases h : armMatches x a = true
    · rw [List.find?_cons_of_pos _ h]
      simp [matchEval, h]
    · rw [List.find?_cons_of_neg _ (by simp [h])]
      simp [matchEval, h, ih]

/-- Claim C1: for a guard chain without an Otherwise clause (written here as
`pre ++ cl :: post`, which covers every nonempty chain), if zero conditions
hold the lowered construct panics with NonExhaustiveGuards after evaluating
every condition in order; and whenever the conditions before `cl` are all
false and the condition of `cl` holds (so `cl` is the first clause in
declaration order whose condition holds, covering both the exactly-one and
the several-hold cases), the result of `cl` is returned and the trace shows
that the conditions of the later clauses are never evaluated. -/
theorem guard_no_otherwise_eval {α : Type} (C : Nat → (Nat → Nat) → Bool) (ow : Bool)
    (s : Nat → Nat) (pre post : List (Clause α)) (cl : Clause α)
    (hno : ∀ c ∈ pre ++ cl :: post, c.cond ≠ Cond.otherw) :
    ((∀ c ∈ pre ++ cl :: post, evalCond C ow s c.cond = false) →
      guardBang C ow (pre ++ cl :: post) s =
        (Except.error "Non-exhaustive guards",
          (pre ++ cl :: post).map fun c => Ev.cond c.cond))
    ∧ ((∀ c ∈ pre, evalCond C ow s c.cond = false) →
        evalCond C ow s cl.cond = true →
        guardBang C ow (pre ++ cl :: post) s =
          (Except.ok cl.res,
            (pre.map fun c => Ev.cond c.cond) ++ [Ev.cond cl.cond, Ev.res cl.res])) := by
  constructor
  · intro hf
    exact evalG_lower_allFalse C ow s _ hno hf
  · intro hf ht
    exact evalG_lower_firstTrue C ow s pre post cl
      (hno cl (by simp)) hf ht

/-- Witness for C1: on the chain `| x = 0 cond => 5, | x = 1 cond => 7` with
the second condition the only true one, the second result is returned and
both conditions appear in the trace, in order. -/
theorem guard_no_otherwise_eval_witness :
    guardBang (fun i _ => i == 1) true [⟨Cond.idx 0, (5 : Nat)⟩, ⟨Cond.idx 1, 7⟩]
        (fun _ => 0)
      = (Except.ok 7, [Ev.cond (Cond.idx 0), Ev.cond (Cond.idx 1), Ev.res 7]) := by
  have h := (guard_no_otherwise_eval (fun i _ => i == 1) true (fun _ => 0)
    [⟨Cond.idx 0, (5 : Nat)⟩] [] ⟨Cond.idx 1, 7⟩ (by decide)).2 (by decide) (by decide)
  simpa using h

/-- Claim C2: a guard chain containing an Otherwise clause never raises
NonExhaustiveGuards (indeed never raises anything), for all values of the
inputs to the conditions, with the identifier `otherwise` at its crate
constant value `true`; this holds both for the plain form and for the
where-binding form (whose re-captured Otherwise clause evaluates the
identifier instead of being consumed by the terminal rule). -/
theorem guard_with_otherwise_no_failure {α : Type} (C : Nat → (Nat → Nat) → Bool)
    (s : Nat → Nat) (bs : List WhereBinding) (cs : List (Clause α))
    (h : ∃ cl ∈ cs, cl.cond = Cond.otherw) :
    (∀ m, (guardBang C true cs s).1 ≠ Except.error m)
    ∧ (∀ m, (guardBangWhere C true bs cs s).1 ≠ Except.error m) := by
  obtain ⟨cl, hmem, hcl⟩ := h
  constructor
  · have hok := evalG_lower_ok_of_true C true s cs
      ⟨cl, hmem, by rw [hcl]; rfl⟩
    obtain ⟨v, hv⟩ := hok
    intro m hm
    rw [guardBang] at hm
    rw [hv] at hm
    exact Except.noConfusion hm
  · have hfrag : (frag cl).cond = Cond.owExpr := by
      obtain ⟨c, r⟩ := cl
      cases hcl
      rfl
    have hok := evalG_lower_ok_of_true C true (bindStore s bs) (cs.map frag)
      ⟨frag cl, List.mem_map_of_mem frag hmem, by rw [hfrag]; rfl⟩
    obtain ⟨v, hv⟩ := hok
    intro m hm
    rw [guardBangWhere, evalLetsGuard_eq] at hm
    simp only at hm
    rw [hv] at hm
    exact Except.noConfusion hm

/-- Witness for C2: a chain whose only clause is Otherwise, under
conditions that are all false, raises nothing in either form. -/
theorem guard_with_otherwise_no_failure_witness :
    (guardBang (fun _ _ => false) true [⟨Cond.otherw, (1 : Nat)⟩] (fun _ => 0)).1
        ≠ Except.error "Non-exhaustive guards"
    ∧ (guardBangWhere (fun _ _ => false) true [⟨3, fun _ => 40⟩]
        [⟨Cond.otherw, (1 : Nat)⟩] (fun _ => 0)).1
        ≠ Except.error "Non-exhaustive guards" := by
  have h := guard_with_otherwise_no_failure (fun _ _ => false) (fun _ => 0)
    [⟨3, fun _ => 40⟩] [⟨Cond.otherw, (1 : Nat)⟩]
    ⟨⟨Cond.otherw, 1⟩, List.mem_cons_self _ _, rfl⟩
  exact ⟨h.1 _, h.2 _⟩

/-- Claim C3: the lowering satisfies the reference right-fold equations:
a non-Otherwise clause followed by a nonempty remaining sub-chain lowers to
an if-then-else whose else branch is the lowering of the rest, and a final
non-Otherwise clause (in particular in a chain where no Otherwise ever
appeared) lowers to an if-then-else whose else branch is the
NonExhaustiveGuards failure. -/
theorem lower_fold_equations {α : Type} :
    (∀ (cl : Clause α) (rest : List (Clause α)), rest ≠ [] →
        cl.cond ≠ Cond.otherw →
        lower (cl :: rest) = GExpr.ite cl.cond cl.res (lower rest))
    ∧ (∀ cl : Clause α, cl.cond ≠ Cond.otherw →
        lower [cl] =
          GExpr.ite cl.cond cl.res (GExpr.panicE "Non-exhaustive guards")) :=
  ⟨fun cl rest h _ => lower_cons cl rest h,
   fun cl h => lower_single_not_otherw cl h⟩

/-- Witness for C3: both fold equations evaluated on a concrete two-clause
chain. -/
theorem lower_fold_equations_witness :
    lower [⟨Cond.idx 0, (1 : Nat)⟩, ⟨Cond.idx 1, 2⟩]
        = GExpr.ite (Cond.idx 0) 1 (lower [⟨Cond.idx 1, (2 : Nat)⟩])
    ∧ lower [⟨Cond.idx 1, (2 : Nat)⟩]
        = GExpr.ite (Cond.idx 1) 2 (GExpr.panicE "Non-exhaustive guards") :=
  ⟨lower_fold_equations.1 ⟨Cond.idx 0, 1⟩ [⟨Cond.idx 1, 2⟩] (by decide) (by decide),
   lower_fold_equations.2 ⟨Cond.idx 1, 2⟩ (by decide)⟩

/-- Claim C4: for a chain containing an Otherwise clause at any position
(final or not), when none of the conditions before the Otherwise clause
holds, evaluation (with the identifier `otherwise` at its crate constant
value `true`) returns exactly the Otherwise clause's result, and the trace
contains no event from the clauses following Otherwise: their conditions
and results are never evaluated.  When Otherwise is final the terminal rule
consumed the token, so not even the `otherwise` identifier is evaluated;
when clauses follow, the clause lowered to an if on the `otherwise`
identifier, whose evaluation is the only extra event. -/
theorem guard_otherwise_result {α : Type} (C : Nat → (Nat → Nat) → Bool)
    (s : Nat → Nat) (pre post : List (Clause α)) (r : α)
    (hf : ∀ c ∈ pre, evalCond C true s c.cond = false) :
    (post = [] →
      guardBang C true (pre ++ ⟨Cond.otherw, r⟩ :: post) s =
        (Except.ok r, (pre.map fun c => Ev.cond c.cond) ++ [Ev.res r]))
    ∧ (post ≠ [] →
      guardBang C true (pre ++ ⟨Cond.otherw, r⟩ :: post) s =
        (Except.ok r,
          (pre.map fun c => Ev.cond c.cond) ++ [Ev.cond Cond.otherw, Ev.res r])) := by
  induction pre with
  | nil =>
    constructor
    · intro hpost
      subst hpost
      rfl
    · intro hpost
      cases post with
      | nil => exact absurd rfl hpost
      | cons a l =>
        rw [List.nil_append, guardBang,
          lower_cons ⟨Cond.otherw, r⟩ (a :: l) (List.cons_ne_nil a l)]
        simp [evalG, evalCond]
  | cons q pre ih =>
    have hq : evalCond C true s q.cond = false := hf q (List.mem_cons_self _ _)
    have ihr := ih fun c hc => hf c (List.mem_cons_of_mem _ hc)
    constructor
    · intro hpost
      have h1 := ihr.1 hpost
      rw [guardBang] at h1 ⊢
      rw [List.cons_append, lower_cons q (pre ++ ⟨Cond.otherw, r⟩ :: post) (by simp)]
      simp [evalG, hq, h1]
    · intro hpost
      have h1 := ihr.2 hpost
      rw [guardBang] at h1 ⊢
      rw [List.cons_append, lower_cons q (pre ++ ⟨Cond.otherw, r⟩ :: post) (by simp)]
      simp [evalG, hq, h1]

/-- Witness for C4: chain with one false clause before Otherwise and one
clause after it; the Otherwise result is returned and the trailing clause
contributes no trace event. -/
theorem guard_otherwise_result_witness :
    guardBang (fun _ _ => false) true
        [⟨Cond.idx 0, (5 : Nat)⟩, ⟨Cond.otherw, 7⟩, ⟨Cond.idx 1, 9⟩] (fun _ => 0)
      = (Except.ok 7, [Ev.cond (Cond.idx 0), Ev.cond Cond.otherw, Ev.res 7]) := by
  have h := (guard_otherwise_result (fun _ _ => false) (fun _ => 0)
    [⟨Cond.idx 0, (5 : Nat)⟩] [⟨Cond.idx 1, 9⟩] 7 (by decide)).2 (by decide)
  simpa using h

theorem guard_failure_iff_aux {α : Type} (C : Nat → (Nat → Nat) → Bool)
    (s : Nat → Nat) (cs : List (Clause α)) (m : String) :
    (guardBang C true cs s).1 = Except.error m ↔
      (m = "Non-exhaustive guards" ∧ (∀ cl ∈ cs, cl.cond ≠ Cond.otherw)
        ∧ ∀ cl ∈ cs, evalCond C true s cl.cond = false) := by
  induction cs with
  | nil =>
    rw [guardBang]
    simp [lower, evalG]
    exact eq_comm
  | cons cl rest ih =>
    have hotr : cl.cond = Cond.otherw → evalCond C true s cl.cond = true := by
      intro h
      rw [h]
      rfl
    cases rest with
    | nil =>
      by_cases how : cl.cond = Cond.otherw
      · rw [guardBang, lower_single_otherw cl how]
        simp [evalG, how]
      · rw [guardBang, lower_single_not_otherw cl how]
        by_cases hc : evalCond C true s cl.cond = true
        · simp [evalG, hc]
        · simp only [Bool.not_eq_true] at hc
          simp [evalG, hc, how]
          exact eq_comm
    | cons a l =>
      rw [guardBang, lower_cons cl (a :: l) (List.cons_ne_nil a l)]
      by_cases hc : evalCond C true s cl.cond = true
      · simp [evalG, hc]
      · simp only [Bool.not_eq_true] at hc
        have hno : cl.cond ≠ Cond.otherw := by
          intro h
          rw [hotr h] at hc
          exact Bool.noConfusion hc
        rw [guardBang] at ih
        simp [evalG, hc, hno, ih]

/-- Claim C5: for every nonempty guard chain and every input (with the
identifier `otherwise` at its crate constant value `true`), the lowered
construct's evaluation ends in a failure with message `m` exactly when `m`
is the fixed message "Non-exhaustive guards", the chain lacks an Otherwise
clause, and no condition evaluates true.  The failure is the final value of
the execution path: nothing in the expansion catches it. -/
theorem guard_failure_iff {α : Type} (C : Nat → (Nat → Nat) → Bool)
    (s : Nat → Nat) (cs : List (Clause α)) (_hne : cs ≠ []) (m : String) :
    (guardBang C true cs s).1 = Except.error m ↔
      (m = "Non-exhaustive guards" ∧ (∀ cl ∈ cs, cl.cond ≠ Cond.otherw)
        ∧ ∀ cl ∈ cs, evalCond C true s cl.cond = false) :=
  guard_failure_iff_aux C s cs m

/-- Witness for C5: a single-clause chain whose condition is false raises
exactly the fixed message. -/
theorem guard_failure_iff_witness :
    (guardBang (fun _ _ => false) true [⟨Cond.idx 0, (5 : Nat)⟩] (fun _ => 0)).1
      = Except.error "Non-exhaustive guards" :=
  (guard_failure_iff (fun _ _ => false) (fun _ => 0) [⟨Cond.idx 0, (5 : Nat)⟩]
    (by decide) "Non-exhaustive guards").mpr ⟨rfl, by decide, by decide⟩

/-- Claim C6: in the where form, each binding's value expression is
evaluated exactly once per evaluation of the construct (the trace contains
exactly as many evaluations of the binding named `n` as the binding list
declares, however many clauses reference the binding through `C`), the
bind events occur in declared order, and the no-where form of `guard!` is
exactly the lowered chain (the identity transform). -/
theorem where_bindings_once {α : Type} (C : Nat → (Nat → Nat) → Bool) (ow : Bool)
    (bs : List WhereBinding) (cs : List (Clause α)) (s : Nat → Nat) :
    (∀ n, countBind n (guardBangWhere C ow bs cs s).2 = countName n bs)
    ∧ (guardBangWhere C ow bs cs s).2.filter isBind
        = (bs.map fun b => (Ev.bind b.name : Ev α))
    ∧ ∀ cs2 : List (Clause α), guardBang C ow cs2 s = evalG C ow s (lower cs2) := by
  have hdec := evalLetsGuard_eq C ow bs cs s
  have hnb := evalG_no_bind C ow (bindStore s bs) (lower (cs.map frag))
  refine ⟨fun n => ?_, ?_, fun cs2 => rfl⟩
  · rw [guardBangWhere, hdec]
    simp only
    rw [countBind_append, countBind_of_no_bind n _ hnb, countBind_map_bind,
      Nat.add_zero]
  · rw [guardBangWhere, hdec]
    simp only
    rw [List.filter_append, filter_isBind_map_bind,
      filter_isBind_of_no_bind _ hnb, List.append_nil]

/-- Claim C7: a `fn_guard!` definition whose signature has no return type
is emitted by the second rule: the emitted function's return type is unit,
its body runs the bindings and the guard chain for effect, the value the
chain produces is discarded into the unit value, and a panic propagates
unchanged (with the trace of evaluated expressions identical to the
body's). -/
theorem fn_guard_unit_ret {α : Type} (d : FnGuardDef α) (h : d.ret = none) :
    emittedRetTy d = RetTy.unit
    ∧ ∀ (C : Nat → (Nat → Nat) → Bool) (ow : Bool) (s : Nat → Nat),
        (evalFnGuardUnit C ow d s).2 = (fnGuardBody C ow d s).2
        ∧ (∀ v, (fnGuardBody C ow d s).1 = Except.ok v →
            (evalFnGuardUnit C ow d s).1 = Except.ok ())
        ∧ (∀ m, (fnGuardBody C ow d s).1 = Except.error m →
            (evalFnGuardUnit C ow d s).1 = Except.error m) := by
  refine ⟨by rw [emittedRetTy, h], fun C ow s => ⟨rfl, fun v hv => ?_, fun m hm => ?_⟩⟩
  · rw [evalFnGuardUnit]
    simp only [hv]
    rfl
  · rw [evalFnGuardUnit]
    simp only [hm]
    rfl

/-- Witness for C7: a concrete definition with absent return type has unit
return type and returns the unit value while its chain produces `1`. -/
theorem fn_guard_unit_ret_witness :
    emittedRetTy (⟨none, [], [⟨Cond.otherw, (1 : Nat)⟩]⟩ : FnGuardDef Nat) = RetTy.unit
    ∧ (evalFnGuardUnit (fun _ _ => false) true
        (⟨none, [], [⟨Cond.otherw, (1 : Nat)⟩]⟩ : FnGuardDef Nat) (fun _ => 0)).1
        = Except.ok () := by
  have h := fn_guard_unit_ret (⟨none, [], [⟨Cond.otherw, (1 : Nat)⟩]⟩ : FnGuardDef Nat) rfl
  exact ⟨h.1, (h.2 (fun _ _ => false) true (fun _ => 0)).2.1 1 rfl⟩

/-- Claim C8: `case!` is a pure re-bracketing: the accumulated native match
has the same arms in the same order, so its behavior equals a hand-written
native match over the same subject, and it selects the first arm whose
pattern matches the subject and whose guard, when present, is true. -/
theorem case_first_match {γ α : Type} (x : γ) (arms : List (CaseArm γ α)) :
    caseBang x arms = matchEval x arms
    ∧ caseBang x arms = (arms.find? (armMatches x)).map fun a => a.result x := by
  have h1 : caseBang x arms = matchEval x arms := by
    rw [caseBang, caseAccArms_eq, List.nil_append]
  exact ⟨h1, h1.trans (matchEval_eq_find x arms)⟩

/-- Concrete chain refuting claim C9: `| otherwise => 1, | c0 => 2`, an
Otherwise clause with a clause after it.  Rule 2 requires the `otherwise`
token to head the last clause, so here rule 3 captures it as an ordinary
expression, and the lowered `if otherwise {1} else {…}` reads whatever the
name `otherwise` denotes at the call site. -/
def shadowChain : List (Clause Nat) := [⟨Cond.otherw, 1⟩, ⟨Cond.idx 0, 2⟩]

/-- Counterexample to claim C9 as stated: `shadowChain` contains an
Otherwise clause, yet evaluating it with the crate constant
(`otherwise = true`) yields `1` while evaluating it in a scope where the
user binds `otherwise = false` yields `2`: user shadowing of the name does
alter guard behavior when clauses follow the Otherwise clause. -/
theorem otherwise_shadow_cex :
    (∃ cl ∈ shadowChain, cl.cond = Cond.otherw)
    ∧ (guardBang (fun _ _ => true) true shadowChain (fun _ => 0)).1 = Except.ok 1
    ∧ (guardBang (fun _ _ => true) false shadowChain (fun _ => 0)).1 = Except.ok 2 :=
  ⟨⟨⟨Cond.otherw, 1⟩, List.mem_cons_self _ _, rfl⟩, rfl, rfl⟩

/-- Claim C9 as amended: for a guard chain without a where clause in which
the Otherwise clause is the final clause and every other clause is an
ordinary condition, the terminal rule consumes the `otherwise` token at
expansion time, so the evaluation result is the same whatever value a
surrounding binding gives the name `otherwise`: shadowing cannot alter
guard behavior. -/
theorem otherwise_final_shadow_immune {α : Type} (C : Nat → (Nat → Nat) → Bool)
    (s : Nat → Nat) (pre : List (Clause α)) (r : α)
    (hpre : ∀ cl ∈ pre, ∃ i, cl.cond = Cond.idx i) (ow ow2 : Bool) :
    guardBang C ow (pre ++ [⟨Cond.otherw, r⟩]) s
      = guardBang C ow2 (pre ++ [⟨Cond.otherw, r⟩]) s := by
  induction pre with
  | nil => rfl
  | cons q pre ih =>
    obtain ⟨i, hi⟩ := hpre q (List.mem_cons_self _ _)
    have ihr := ih fun c hc => hpre c (List.mem_cons_of_mem _ hc)
    simp only [guardBang] at ihr ⊢
    rw [List.cons_append,
      lower_cons q (pre ++ [Clause.mk Cond.otherw r]) (by simp), hi]
    by_cases hC : C i s
    · simp [evalG, evalCond, hC]
    · simp [evalG, evalCond, hC, ihr]

/-- Witness for the amended C9: a two-clause chain with final Otherwise
evaluates identically under `otherwise = true` and a shadow
`otherwise = false`. -/
theorem otherwise_final_shadow_immune_witness :
    guardBang (fun _ _ => false) true [⟨Cond.idx 0, (5 : Nat)⟩, ⟨Cond.otherw, 7⟩]
        (fun _ => 0)
      = guardBang (fun _ _ => false) false [⟨Cond.idx 0, (5 : Nat)⟩, ⟨Cond.otherw, 7⟩]
        (fun _ => 0) := by
  have h := otherwise_final_shadow_immune (fun _ _ => false) (fun _ => 0)
    [⟨Cond.idx 0, (5 : Nat)⟩] 7
    (fun cl hc => by
      rw [List.mem_singleton] at hc
      subst hc
      exact ⟨0, rfl⟩) true false
  simpa using h

/-- Claim C10: although the where clause appears textually after the
clause list, the expansion places every binding's `let` before the lowered
chain, so for every input (including evaluations where the first condition
is true and evaluations that end in the NonExhaustiveGuards panic) the
trace is the bind events, once each in declared order, followed by a
suffix containing no bind event at all. -/
theorem where_bindings_before_conditions {α : Type} (C : Nat → (Nat → Nat) → Bool)
    (ow : Bool) (bs : List WhereBinding) (cs : List (Clause α)) (s : Nat → Nat) :
    ∃ ct, (guardBangWhere C ow bs cs s).2
        = (bs.map fun b => (Ev.bind b.name : Ev α)) ++ ct
      ∧ ∀ n, (Ev.bind n : Ev α) ∉ ct := by
  refine ⟨(evalG C ow (bindStore s bs) (lower (cs.map frag))).2, ?_, ?_⟩
  · rw [guardBangWhere, evalLetsGuard_eq]
  · exact evalG_no_bind C ow (bindStore s bs) (lower (cs.map frag))

end HGM
